import Mathlib

/-!
Shallow embedding of the ANSI-SGR run parser and its two renderers
(`parse.go` of the enviewgo repository), together with theorems checking
the natural-language specification against it.

Strings from the Go side are modelled as `List Char` (Go iterates the
input rune by rune); color values taken from the constant tables are kept
as Lean `String` literals.  Go `int` is modelled as `Int`, and
`strconv.Atoi` as a partial function returning `Option Int` with the
64-bit range check.
-/

/-- The styled run produced by the parser (`type text` in the source):
a span of text plus background color, foreground color and boldness.
An empty color string means "unset". -/
structure Text where
  text : List Char
  bg : String
  fg : String
  bold : Bool
deriving DecidableEq

/-- The eight standard colors (SGR 30-37 / 40-47, palette 0-7). -/
def LowColors : List String :=
  ["#303030", "#800000", "#008000", "#808000",
   "#000080", "#800080", "#008080", "#c0c0c0"]

/-- The eight bright colors (SGR 90-97 / 100-107, palette 8-15). -/
def HighColors : List String :=
  ["#808080", "#ff0000", "#00ff00", "#ffff00",
   "#0000ff", "#ff00ff", "#00ffff", "#ffffff"]

/-- The 24-entry grayscale ramp (palette 232-255), exactly as written in
the source. -/
def GrayscaleColors : List String :=
  ["#080808", "#121212", "#1c1c1c", "#262626", "#303030", "#3a3a3a",
   "#444444", "#4e4e4e", "#585858", "#626262", "#6c6c6c", "#767676",
   "#808080", "#8a8a8a", "#9e9e9e", "#9e9e9e", "#a8a8a8", "#b2b2b2",
   "#bcbcbc", "#c6c6c6", "#d0d0d0", "#dadada", "#e4e4e4", "#eeeeee"]

/-- The six per-channel levels of the 6x6x6 color cube. -/
def CubeColors : List String := ["00", "5f", "87", "af", "d7", "ff"]

/-- 256-color palette resolution (`color8bit` in the source). -/
def color8bit (c : Int) : String :=
  if 0 ≤ c ∧ c ≤ 7 then LowColors.getD c.toNat ""
  else if 8 ≤ c ∧ c ≤ 15 then HighColors.getD (c - 8).toNat ""
  else if 16 ≤ c ∧ c ≤ 231 then
    let n := (c - 16).toNat
    let r := n / 36
    let g := (n - 36 * r) / 6
    let b := n - 36 * r - 6 * g
    "#" ++ CubeColors.getD r "" ++ CubeColors.getD g "" ++ CubeColors.getD b ""
  else if 232 ≤ c ∧ c ≤ 255 then GrayscaleColors.getD (c - 232).toNat ""
  else ""

example : color8bit 42 = "#00d787" := by decide
example : color8bit 243 = "#767676" := by decide
example : color8bit 16 = "#000000" := by decide

/-- The two error values the parser can produce: the package-level
`parseError` (used for a malformed escape and for a `38`/`48` command
lacking its two trailing parameters) and a `strconv.Atoi` failure on a
parameter segment. -/
inductive parseErr where
  | parseError
  | atoiError
deriving DecidableEq

/-- The parser's lexical mode.  The source dispatches through function
values (`parsePlain`, `parseESC`, `parseCSI`); here the same three
states are an enumeration. -/
inductive parseState where
  | plain
  | esc
  | csi
deriving DecidableEq

/-- The parser state (`type parser` in the source): accumulated runs
`ts`, the pending text buffer `b`, the pending parameter buffer `c`, and
the current style `bg`/`fg`/`bold`. -/
structure parser where
  ts : List Text
  b : List Char
  c : List Char
  bg : String
  fg : String
  bold : Bool
deriving DecidableEq

/-- The zero value `&parser{}` a fresh parse starts from. -/
def parser.init : parser := ⟨[], [], [], "", "", false⟩

/-- `(*parser).append`: emit the pending text buffer as a run under the
current style and clear the buffer. -/
def parser.append (p : parser) : parser :=
  { p with ts := p.ts ++ [⟨p.b, p.bg, p.fg, p.bold⟩], b := [] }

/-- Value of a nonempty all-digit string, `none` otherwise. -/
def digitsVal (s : List Char) : Option Nat :=
  if s ≠ [] ∧ s.all Char.isDigit then
    some (s.foldl (fun a c => a * 10 + (c.toNat - 48)) 0)
  else none

/-- `strconv.Atoi`: optional sign, at least one decimal digit, value
within the signed 64-bit range; `none` models a non-nil error. -/
def atoi (s : List Char) : Option Int :=
  match s with
  | '-' :: r =>
    match digitsVal r with
    | some v => if (v : Int) ≤ 2 ^ 63 then some (-(v : Int)) else none
    | none => none
  | '+' :: r =>
    match digitsVal r with
    | some v => if (v : Int) ≤ 2 ^ 63 - 1 then some (v : Int) else none
    | none => none
  | r =>
    match digitsVal r with
    | some v => if (v : Int) ≤ 2 ^ 63 - 1 then some (v : Int) else none
    | none => none

/-- `strings.Split(s, ";")`: the (never empty) list of `;`-separated
segments; the empty string yields one empty segment. -/
def splitSemi : List Char → List (List Char)
  | [] => [[]]
  | c :: r =>
    if c = ';' then [] :: splitSemi r
    else
      match splitSemi r with
      | [] => [[c]]
      | g :: gs => (c :: g) :: gs

/-- Convert every segment with `atoi`, failing on the first bad one,
exactly as the conversion loop in `parseCSI` does. -/
def atoiList : List (List Char) → Option (List Int)
  | [] => some []
  | s :: rest =>
    match atoi s with
    | none => none
    | some v =>
      match atoiList rest with
      | none => none
      | some vs => some (v :: vs)

/-- The SGR command loop of `parseCSI` (the `for i := 0; ...` loop):
apply the integer code list left to right to the style state.  A `38` or
`48` with fewer than two entries after it stops with `parseError`; with
following entries `e1, e2` it consumes `e2` as a palette index only when
`e1 = 5`, and otherwise consumes just `e1`.  The parser reached at the
point of an error is returned alongside it. -/
def applySGR (p : parser) : List Int → parser × Option parseErr
  | [] => (p, none)
  | c :: rest =>
    if c = 0 then applySGR { p with bg := "", fg := "", bold := false } rest
    else if c = 1 then applySGR { p with bold := true } rest
    else if 30 ≤ c ∧ c ≤ 37 then
      applySGR { p with fg := LowColors.getD (c - 30).toNat "" } rest
    else if c = 38 then
      match rest with
      | e1 :: e2 :: rest2 =>
        if e1 = 5 then applySGR { p with fg := color8bit e2 } rest2
        else applySGR p (e2 :: rest2)
      | _ => (p, some .parseError)
    else if 40 ≤ c ∧ c ≤ 47 then
      applySGR { p with bg := LowColors.getD (c - 40).toNat "" } rest
    else if c = 48 then
      match rest with
      | e1 :: e2 :: rest2 =>
        if e1 = 5 then applySGR { p with bg := color8bit e2 } rest2
        else applySGR p (e2 :: rest2)
      | _ => (p, some .parseError)
    else if 90 ≤ c ∧ c ≤ 97 then
      applySGR { p with fg := HighColors.getD (c - 90).toNat "" } rest
    else if 100 ≤ c ∧ c ≤ 107 then
      applySGR { p with bg := HighColors.getD (c - 100).toNat "" } rest
    else applySGR p rest

/-- One step of the state machine: the union of `parsePlain`,
`parseESC` and `parseCSI` from the source, keyed on the current mode.
Returns the updated parser and either the next mode or the error. -/
def step (p : parser) (st : parseState) (c : Char) :
    parser × Except parseErr parseState :=
  match st with
  | .plain =>
    if c = '\x1b' then
      (if p.b.length > 0 then p.append else p, .ok .esc)
    else ({ p with b := p.b ++ [c] }, .ok .plain)
  | .esc =>
    if c = '[' then (p, .ok .csi) else (p, .error .parseError)
  | .csi =>
    if c = 'm' then
      match atoiList (splitSemi p.c) with
      | none => ({ p with c := [] }, .error .atoiError)
      | some codes =>
        match applySGR { p with c := [] } codes with
        | (p1, none) => (p1, .ok .plain)
        | (p1, some e) => (p1, .error e)
    else ({ p with c := p.c ++ [c] }, .ok .csi)

/-- The character loop of `(*parser).parse`: run `step` over the input,
stopping at the first error. -/
def exec (p : parser) (st : parseState) : List Char → parser × parseState × Option parseErr
  | [] => (p, st, none)
  | c :: cs =>
    match step p st c with
    | (p1, .ok st1) => exec p1 st1 cs
    | (p1, .error e) => (p1, st, some e)

/-- `(*parser).parse`: reset `ts`, run the loop from `Plain`; on success
append one final run from the pending buffer (unconditionally, whatever
the final mode was), on error return at once. -/
def parser.parseSM (p0 : parser) (input : List Char) : parser × Option parseErr :=
  match exec { p0 with ts := [] } .plain input with
  | (p, _, none) => (p.append, none)
  | (p, _, some e) => (p, some e)

/-- The top-level `parse` function: the zero-length special case, then a
fresh parser's run; the run list is returned even alongside an error. -/
def parse (input : List Char) : List Text × Option parseErr :=
  if input.length = 0 then ([], none)
  else
    let (p, e) := parser.parseSM parser.init input
    (p.ts, e)

example : parse "plain".toList = ([⟨"plain".toList, "", "", false⟩], none) := by decide
example : parse "".toList = ([], none) := by decide
example : parse "a\x1b[31mb".toList =
    ([⟨['a'], "", "", false⟩, ⟨['b'], "", "#800000", false⟩], none) := by decide
example : parse "a\x1b".toList =
    ([⟨['a'], "", "", false⟩, ⟨[], "", "", false⟩], none) := by decide
example : parse "a\x1bX".toList = ([⟨['a'], "", "", false⟩], some .parseError) := by decide

/-- Per-character escaping done by `html.EscapeString`: the five
reserved characters become entities, everything else stays. -/
def escapeChar (c : Char) : String :=
  if c = '&' then "&amp;"
  else if c = '\x27' then "&#39;"
  else if c = '<' then "&lt;"
  else if c = '>' then "&gt;"
  else if c = '"' then "&#34;"
  else String.singleton c

/-- `html.EscapeString` over a run's text. -/
def escapeString (s : List Char) : String :=
  String.join (s.map escapeChar)

/-- `(*text).toHTML`: escape the text, collect the style declarations of
the set attributes in the fixed order background-color, color,
font-weight, and wrap in a span exactly when at least one is set. -/
def Text.toHTML (t : Text) : String :=
  let escaped := escapeString t.text
  let styles : List String :=
    (if t.bg.length > 0 then ["background-color: " ++ t.bg] else []) ++
    (if t.fg.length > 0 then ["color: " ++ t.fg] else []) ++
    (if t.bold then ["font-weight: bold"] else [])
  if styles.length > 0 then
    "<span style=\"" ++ String.intercalate "; " styles ++ "\">" ++ escaped ++ "</span>"
  else escaped

/-- `parseHTML`: run the parser on the input and concatenate the per-run
HTML; the empty string paired with the error is modelled as `.error`. -/
def parseHTML (bs : List Char) : String × Option parseErr :=
  match parser.parseSM parser.init bs with
  | (_, some e) => ("", some e)
  | (p, none) => (String.join (p.ts.map Text.toHTML), none)

/-- The plain-text renderer: concatenate the run texts, discarding the
styles. -/
def renderPlain (ts : List Text) : List Char :=
  (ts.map Text.text).flatten

/-- Target of the plain-text claim, following the specification's words:
the input with every recognized SGR escape sequence (the introducer,
`[`, the parameter characters and the terminating `m`) removed, and a
trailing unterminated escape sequence removed; tracked with the same
three lexical modes the specification describes.  The `Escape`-mode
branch for a character other than `[` is a parse failure, so its value
is never compared. -/
def stripFrom : parseState → List Char → List Char
  | _, [] => []
  | .plain, c :: cs => if c = '\x1b' then stripFrom .esc cs else c :: stripFrom .plain cs
  | .esc, c :: cs => if c = '[' then stripFrom .csi cs else []
  | .csi, c :: cs => if c = 'm' then stripFrom .plain cs else stripFrom .csi cs

/-- The whole-input plain-text target of the specification. -/
def stripSGR (input : List Char) : List Char :=
  stripFrom .plain input

example : stripSGR "a\x1b[31mb\x1b[0".toList = "ab".toList := by decide

lemma renderPlain_nil : renderPlain [] = [] := rfl

lemma renderPlain_snoc (ts : List Text) (t : Text) :
    renderPlain (ts ++ [t]) = renderPlain ts ++ t.text := by
  simp [renderPlain]

lemma stripFrom_nil (st : parseState) : stripFrom st [] = [] := by
  cases st <;> rfl

lemma stripFrom_plain_esc (cs : List Char) :
    stripFrom .plain ('\x1b' :: cs) = stripFrom .esc cs := by
  simp [stripFrom]

lemma stripFrom_plain_other (c : Char) (cs : List Char) (hc : c ≠ '\x1b') :
    stripFrom .plain (c :: cs) = c :: stripFrom .plain cs := by
  simp [stripFrom, hc]

lemma stripFrom_esc_br (cs : List Char) :
    stripFrom .esc ('[' :: cs) = stripFrom .csi cs := by
  simp [stripFrom]

lemma stripFrom_csi_m (cs : List Char) :
    stripFrom .csi ('m' :: cs) = stripFrom .plain cs := by
  simp [stripFrom]

lemma stripFrom_csi_other (c : Char) (cs : List Char) (hc : c ≠ 'm') :
    stripFrom .csi (c :: cs) = stripFrom .csi cs := by
  simp [stripFrom, hc]

lemma exec_cons (p : parser) (st : parseState) (c : Char) (cs : List Char) :
    exec p st (c :: cs) =
      match step p st c with
      | (p1, .ok st1) => exec p1 st1 cs
      | (p1, .error e) => (p1, st, some e) := rfl

lemma step_plain_esc (p : parser) :
    step p .plain '\x1b' = (if p.b.length > 0 then p.append else p, .ok .esc) := rfl

lemma step_plain_other (p : parser) (c : Char) (hc : c ≠ '\x1b') :
    step p .plain c = ({ p with b := p.b ++ [c] }, .ok .plain) := by
  simp [step, hc]

lemma step_esc_br (p : parser) : step p .esc '[' = (p, .ok .csi) := rfl

lemma step_esc_other (p : parser) (c : Char) (hc : c ≠ '[') :
    step p .esc c = (p, .error .parseError) := by
  simp [step, hc]

lemma step_csi_other (p : parser) (c : Char) (hc : c ≠ 'm') :
    step p .csi c = ({ p with c := p.c ++ [c] }, .ok .csi) := by
  simp [step, hc]

lemma applySGR_nil (p : parser) : applySGR p [] = (p, none) := rfl

/-- Unfolding of one `applySGR` iteration, with the inner match spelled
out (the generated equations split on the tail, so this single unfold is
proved by cases on it). -/
lemma applySGR_cons (p : parser) (c : Int) (rest : List Int) :
    applySGR p (c :: rest) =
      (if c = 0 then applySGR { p with bg := "", fg := "", bold := false } rest
      else if c = 1 then applySGR { p with bold := true } rest
      else if 30 ≤ c ∧ c ≤ 37 then
        applySGR { p with fg := LowColors.getD (c - 30).toNat "" } rest
      else if c = 38 then
        match rest with
        | e1 :: e2 :: rest2 =>
          if e1 = 5 then applySGR { p with fg := color8bit e2 } rest2
          else applySGR p (e2 :: rest2)
        | _ => (p, some .parseError)
      else if 40 ≤ c ∧ c ≤ 47 then
        applySGR { p with bg := LowColors.getD (c - 40).toNat "" } rest
      else if c = 48 then
        match rest with
        | e1 :: e2 :: rest2 =>
          if e1 = 5 then applySGR { p with bg := color8bit e2 } rest2
          else applySGR p (e2 :: rest2)
        | _ => (p, some .parseError)
      else if 90 ≤ c ∧ c ≤ 97 then
        applySGR { p with fg := HighColors.getD (c - 90).toNat "" } rest
      else if 100 ≤ c ∧ c ≤ 107 then
        applySGR { p with bg := HighColors.getD (c - 100).toNat "" } rest
      else applySGR p rest) := by
  cases rest with
  | nil => rfl
  | cons e1 rest1 =>
    cases rest1 with
    | nil => rfl
    | cons e2 rest2 => rfl

lemma applySGR_zero (p : parser) (rest : List Int) :
    applySGR p (0 :: rest) = applySGR { p with bg := "", fg := "", bold := false } rest := by
  rw [applySGR_cons, if_pos rfl]

lemma applySGR_one (p : parser) (rest : List Int) :
    applySGR p (1 :: rest) = applySGR { p with bold := true } rest := by
  rw [applySGR_cons, if_neg (by norm_num), if_pos rfl]

lemma applySGR_fgLow (p : parser) (c : Int) (rest : List Int) (h30 : 30 ≤ c) (h37 : c ≤ 37) :
    applySGR p (c :: rest) = applySGR { p with fg := LowColors.getD (c - 30).toNat "" } rest := by
  rw [applySGR_cons, if_neg (by omega), if_neg (by omega), if_pos ⟨h30, h37⟩]

lemma applySGR_38_nil (p : parser) : applySGR p [38] = (p, some .parseError) := rfl

lemma applySGR_38_one (p : parser) (e1 : Int) : applySGR p [38, e1] = (p, some .parseError) := rfl

lemma applySGR_38_5 (p : parser) (e2 : Int) (rest2 : List Int) :
    applySGR p (38 :: 5 :: e2 :: rest2) = applySGR { p with fg := color8bit e2 } rest2 := rfl

lemma applySGR_38_not5 (p : parser) (e1 e2 : Int) (rest2 : List Int) (h : e1 ≠ 5) :
    applySGR p (38 :: e1 :: e2 :: rest2) = applySGR p (e2 :: rest2) := by
  rw [applySGR_cons]
  norm_num
  intro h5
  exact absurd h5 h

lemma applySGR_bgLow (p : parser) (c : Int) (rest : List Int) (h40 : 40 ≤ c) (h47 : c ≤ 47) :
    applySGR p (c :: rest) = applySGR { p with bg := LowColors.getD (c - 40).toNat "" } rest := by
  rw [applySGR_cons]
  repeat rw [if_neg (by omega)]
  rw [if_pos ⟨h40, h47⟩]

lemma applySGR_48_nil (p : parser) : applySGR p [48] = (p, some .parseError) := rfl

lemma applySGR_48_one (p : parser) (e1 : Int) : applySGR p [48, e1] = (p, some .parseError) := rfl

lemma applySGR_48_5 (p : parser) (e2 : Int) (rest2 : List Int) :
    applySGR p (48 :: 5 :: e2 :: rest2) = applySGR { p with bg := color8bit e2 } rest2 := rfl

lemma applySGR_48_not5 (p : parser) (e1 e2 : Int) (rest2 : List Int) (h : e1 ≠ 5) :
    applySGR p (48 :: e1 :: e2 :: rest2) = applySGR p (e2 :: rest2) := by
  rw [applySGR_cons]
  norm_num
  intro h5
  exact absurd h5 h

lemma applySGR_fgHigh (p : parser) (c : Int) (rest : List Int) (h90 : 90 ≤ c) (h97 : c ≤ 97) :
    applySGR p (c :: rest) = applySGR { p with fg := HighColors.getD (c - 90).toNat "" } rest := by
  rw [applySGR_cons]
  repeat rw [if_neg (by omega)]
  rw [if_pos ⟨h90, h97⟩]

lemma applySGR_bgHigh (p : parser) (c : Int) (rest : List Int) (h100 : 100 ≤ c) (h107 : c ≤ 107) :
    applySGR p (c :: rest) = applySGR { p with bg := HighColors.getD (c - 100).toNat "" } rest := by
  rw [applySGR_cons]
  repeat rw [if_neg (by omega)]
  rw [if_pos ⟨h100, h107⟩]

lemma applySGR_other (p : parser) (c : Int) (rest : List Int)
    (hn : ¬(c = 0 ∨ c = 1 ∨ (30 ≤ c ∧ c ≤ 37) ∨ c = 38 ∨ (40 ≤ c ∧ c ≤ 47) ∨ c = 48 ∨
      (90 ≤ c ∧ c ≤ 97) ∨ (100 ≤ c ∧ c ≤ 107))) :
    applySGR p (c :: rest) = applySGR p rest := by
  push_neg at hn
  rw [applySGR_cons]
  repeat rw [if_neg (by omega)]

lemma applySGR_fields_aux :
    ∀ (n : Nat) (codes : List Int), codes.length ≤ n → ∀ p : parser,
      ((applySGR p codes).1).ts = p.ts ∧ ((applySGR p codes).1).b = p.b ∧
        ((applySGR p codes).1).c = p.c := by
  intro n
  induction n with
  | zero =>
    intro codes hlen p
    have hnil : codes = [] := List.eq_nil_of_length_eq_zero (Nat.le_zero.mp hlen)
    subst hnil
    simp [applySGR_nil]
  | succ n ih =>
    intro codes hlen p
    rcases codes with - | ⟨c, rest⟩
    · simp [applySGR_nil]
    · have hr : rest.length ≤ n := by simpa using hlen
      by_cases h0 : c = 0
      · subst h0
        rw [applySGR_zero]
        simpa using ih rest hr { p with bg := "", fg := "", bold := false }
      by_cases h1 : c = 1
      · subst h1
        rw [applySGR_one]
        simpa using ih rest hr { p with bold := true }
      by_cases h2 : 30 ≤ c ∧ c ≤ 37
      · rw [applySGR_fgLow p c rest h2.1 h2.2]
        simpa using ih rest hr { p with fg := LowColors.getD (c - 30).toNat "" }
      by_cases h3 : c = 38
      · subst h3
        rcases rest with - | ⟨e1, - | ⟨e2, rest2⟩⟩
        · rw [applySGR_38_nil]
          exact ⟨rfl, rfl, rfl⟩
        · rw [applySGR_38_one]
          exact ⟨rfl, rfl, rfl⟩
        · have hr2 : rest2.length ≤ n := by simp at hr; omega
          have hr1 : (e2 :: rest2).length ≤ n := by simp at hr ⊢; omega
          by_cases he : e1 = 5
          · subst he
            rw [applySGR_38_5]
            simpa using ih rest2 hr2 { p with fg := color8bit e2 }
          · rw [applySGR_38_not5 p e1 e2 rest2 he]
            exact ih (e2 :: rest2) hr1 p
      by_cases h4 : 40 ≤ c ∧ c ≤ 47
      · rw [applySGR_bgLow p c rest h4.1 h4.2]
        simpa using ih rest hr { p with bg := LowColors.getD (c - 40).toNat "" }
      by_cases h5 : c = 48
      · subst h5
        rcases rest with - | ⟨e1, - | ⟨e2, rest2⟩⟩
        · rw [applySGR_48_nil]
          exact ⟨rfl, rfl, rfl⟩
        · rw [applySGR_48_one]
          exact ⟨rfl, rfl, rfl⟩
        · have hr2 : rest2.length ≤ n := by simp at hr; omega
          have hr1 : (e2 :: rest2).length ≤ n := by simp at hr ⊢; omega
          by_cases he : e1 = 5
          · subst he
            rw [applySGR_48_5]
            simpa using ih rest2 hr2 { p with bg := color8bit e2 }
          · rw [applySGR_48_not5 p e1 e2 rest2 he]
            exact ih (e2 :: rest2) hr1 p
      by_cases h6 : 90 ≤ c ∧ c ≤ 97
      · rw [applySGR_fgHigh p c rest h6.1 h6.2]
        simpa using ih rest hr { p with fg := HighColors.getD (c - 90).toNat "" }
      by_cases h7 : 100 ≤ c ∧ c ≤ 107
      · rw [applySGR_bgHigh p c rest h7.1 h7.2]
        simpa using ih rest hr { p with bg := HighColors.getD (c - 100).toNat "" }
      · rw [applySGR_other p c rest (by tauto)]
        exact ih rest hr p

/-- `applySGR` only changes the style fields: the run list and the two
buffers pass through untouched. -/
lemma applySGR_fields (p : parser) (codes : List Int) :
    ((applySGR p codes).1).ts = p.ts ∧ ((applySGR p codes).1).b = p.b ∧
      ((applySGR p codes).1).c = p.c :=
  applySGR_fields_aux codes.length codes le_rfl p

lemma step_csi_m_atoiFail (p : parser) (hA : atoiList (splitSemi p.c) = none) :
    step p .csi 'm' = ({ p with c := [] }, .error .atoiError) := by
  simp [step, hA]

lemma step_csi_m_ok (p : parser) (codes : List Int) (p1 : parser)
    (hA : atoiList (splitSemi p.c) = some codes)
    (hS : applySGR { p with c := [] } codes = (p1, none)) :
    step p .csi 'm' = (p1, .ok .plain) := by
  simp [step, hA, hS]

lemma step_csi_m_sgrFail (p : parser) (codes : List Int) (p1 : parser) (e : parseErr)
    (hA : atoiList (splitSemi p.c) = some codes)
    (hS : applySGR { p with c := [] } codes = (p1, some e)) :
    step p .csi 'm' = (p1, .error e) := by
  simp [step, hA, hS]

lemma parseSM_ok (p0 p1 : parser) (st1 : parseState) (input : List Char)
    (hE : exec { p0 with ts := [] } .plain input = (p1, st1, none)) :
    parser.parseSM p0 input = (p1.append, none) := by
  simp [parser.parseSM, hE]

lemma parseSM_err (p0 p1 : parser) (st1 : parseState) (e : parseErr) (input : List Char)
    (hE : exec { p0 with ts := [] } .plain input = (p1, st1, some e)) :
    parser.parseSM p0 input = (p1, some e) := by
  simp [parser.parseSM, hE]

/-- Core invariant behind the plain-text claim: running the machine
without an error extends the concatenated run text plus pending buffer
by exactly the stripped remaining input. -/
lemma exec_renderPlain (cs : List Char) :
    ∀ (p : parser) (st : parseState) (p' : parser) (st' : parseState),
      exec p st cs = (p', st', none) →
      renderPlain p'.ts ++ p'.b = (renderPlain p.ts ++ p.b) ++ stripFrom st cs := by
  induction cs with
  | nil =>
    intro p st p' st' h
    simp only [exec, Prod.mk.injEq] at h
    obtain ⟨rfl, rfl, -⟩ := h
    rw [stripFrom_nil, List.append_nil]
  | cons c cs ih =>
    intro p st p' st' h
    cases st with
    | plain =>
      by_cases hc : c = '\x1b'
      · subst hc
        rw [exec_cons, step_plain_esc] at h
        rw [stripFrom_plain_esc]
        by_cases hb : p.b.length > 0
        · rw [if_pos hb] at h
          have H := ih _ _ _ _ h
          rw [H]
          simp [parser.append, renderPlain_snoc]
        · rw [if_neg hb] at h
          have hnil : p.b = [] := by
            simpa using List.eq_nil_of_length_eq_zero (Nat.eq_zero_of_not_pos hb)
          have H := ih _ _ _ _ h
          rw [H, hnil]
      · rw [exec_cons, step_plain_other p c hc] at h
        have H := ih _ _ _ _ h
        rw [stripFrom_plain_other c cs hc, H]
        simp
    | esc =>
      by_cases hc : c = '['
      · subst hc
        rw [exec_cons, step_esc_br] at h
        have H := ih _ _ _ _ h
        rw [stripFrom_esc_br, H]
      · rw [exec_cons, step_esc_other p c hc] at h
        simp at h
    | csi =>
      by_cases hc : c = 'm'
      · subst hc
        rcases hA : atoiList (splitSemi p.c) with - | codes
        · rw [exec_cons, step_csi_m_atoiFail p hA] at h
          simp at h
        · rcases hS : applySGR { p with c := [] } codes with ⟨p1, e⟩
          cases e with
          | some e1 =>
            rw [exec_cons, step_csi_m_sgrFail p codes p1 e1 hA hS] at h
            simp at h
          | none =>
            rw [exec_cons, step_csi_m_ok p codes p1 hA hS] at h
            have H := ih _ _ _ _ h
            have hf := applySGR_fields { p with c := [] } codes
            rw [hS] at hf
            rw [stripFrom_csi_m, H, hf.1, hf.2.1]
      · rw [exec_cons, step_csi_other p c hc] at h
        have H := ih _ _ _ _ h
        rw [stripFrom_csi_other c cs hc, H]

/-- C1: for every input on which the parse succeeds, concatenating the
text fields of the returned runs in input order (the plain-text
renderer) yields the input with every recognized SGR escape sequence
removed and any trailing unterminated escape sequence removed. -/
theorem parse_renderPlain_strips (input : List Char) (ts : List Text)
    (h : parse input = (ts, none)) : renderPlain ts = stripSGR input := by
  by_cases h0 : input.length = 0
  · have hnil : input = [] := List.eq_nil_of_length_eq_zero h0
    subst hnil
    simp only [parse, List.length_nil, if_pos, Prod.mk.injEq] at h
    rw [← h.1, stripSGR, stripFrom_nil, renderPlain_nil]
  · rw [parse, if_neg h0] at h
    rcases hE : exec { parser.init with ts := [] } .plain input with ⟨p1, st1, e1⟩
    cases e1 with
    | some e1 =>
      rw [parseSM_err parser.init p1 st1 e1 input hE] at h
      simp at h
    | none =>
      rw [parseSM_ok parser.init p1 st1 input hE] at h
      simp only [Prod.mk.injEq] at h
      obtain ⟨h1, -⟩ := h
      subst h1
      have H := exec_renderPlain input _ _ _ _ hE
      simp only [parser.init, renderPlain_nil, List.nil_append] at H
      simp only [parser.append, renderPlain_snoc, stripSGR]
      simpa using H

/-- Witness for C1: the theorem applied at the input `"a\x1b[31mb"`. -/
theorem parse_renderPlain_strips_witness :
    renderPlain [⟨['a'], "", "", false⟩, ⟨['b'], "", "#800000", false⟩] =
      stripSGR "a\x1b[31mb".toList :=
  parse_renderPlain_strips _ _ (by decide)

/-- In `Escape` or `CSIParams` mode the pending text buffer is empty:
entering `Escape` flushes it, and it is only written in `Plain` mode. -/
lemma exec_b_empty (cs : List Char) :
    ∀ (p : parser) (st : parseState) (p' : parser) (st' : parseState),
      exec p st cs = (p', st', none) →
      ((st = .esc ∨ st = .csi) → p.b = []) →
      ((st' = .esc ∨ st' = .csi) → p'.b = []) := by
  induction cs with
  | nil =>
    intro p st p' st' h hinv
    simp only [exec, Prod.mk.injEq] at h
    obtain ⟨rfl, rfl, -⟩ := h
    exact hinv
  | cons c cs ih =>
    intro p st p' st' h hinv
    cases st with
    | plain =>
      by_cases hc : c = '\x1b'
      · subst hc
        rw [exec_cons, step_plain_esc] at h
        by_cases hb : p.b.length > 0
        · rw [if_pos hb] at h
          exact ih _ _ _ _ h (fun _ => by simp [parser.append])
        · rw [if_neg hb] at h
          refine ih _ _ _ _ h (fun _ => ?_)
          exact List.eq_nil_of_length_eq_zero (Nat.eq_zero_of_not_pos hb)
      · rw [exec_cons, step_plain_other p c hc] at h
        exact ih _ _ _ _ h (fun h' => by simp at h')
    | esc =>
      by_cases hc : c = '['
      · subst hc
        rw [exec_cons, step_esc_br] at h
        exact ih _ _ _ _ h (fun _ => hinv (Or.inl rfl))
      · rw [exec_cons, step_esc_other p c hc] at h
        simp at h
    | csi =>
      by_cases hc : c = 'm'
      · subst hc
        rcases hA : atoiList (splitSemi p.c) with - | codes
        · rw [exec_cons, step_csi_m_atoiFail p hA] at h
          simp at h
        · rcases hS : applySGR { p with c := [] } codes with ⟨p1, e⟩
          cases e with
          | some e1 =>
            rw [exec_cons, step_csi_m_sgrFail p codes p1 e1 hA hS] at h
            simp at h
          | none =>
            rw [exec_cons, step_csi_m_ok p codes p1 hA hS] at h
            exact ih _ _ _ _ h (fun h' => by simp at h')
      · rw [exec_cons, step_csi_other p c hc] at h
        exact ih _ _ _ _ h (fun _ => hinv (Or.inr rfl))

/-- C2 counterexample: on `"a\x1b"` (text then a bare trailing escape
introducer) the parse returns the flushed run `"a"` plus one additional
empty-text run from the unconditional end-of-input append, so the run
sequence is not exactly the runs flushed before the escape started. -/
theorem trailing_escape_extra_run_cex :
    parse "a\x1b".toList =
      ([⟨['a'], "", "", false⟩, ⟨[], "", "", false⟩], none) ∧
    ([⟨['a'], "", "", false⟩, ⟨[], "", "", false⟩] : List Text) ≠
      [⟨['a'], "", "", false⟩] := by
  constructor
  · decide
  · decide

/-- C2 as amended: when the input ends while still in `Escape` or
`CSIParams` mode, the parse returns no error, and the run sequence is
exactly the runs flushed before that escape sequence started followed by
one empty-text run appended at end of input; the content of the
incomplete escape sequence itself contributes no run text. -/
theorem trailing_escape_amended (input : List Char) (p : parser) (st : parseState)
    (hE : exec parser.init .plain input = (p, st, none))
    (hst : st = .esc ∨ st = .csi) :
    parse input = (p.ts ++ [⟨[], p.bg, p.fg, p.bold⟩], none) := by
  have hb : p.b = [] :=
    exec_b_empty input parser.init .plain p st hE (fun h' => by simp [parser.init] at h') hst
  have h0 : input.length ≠ 0 := by
    intro hlen
    have hnil : input = [] := List.eq_nil_of_length_eq_zero hlen
    subst hnil
    simp only [exec, Prod.mk.injEq] at hE
    obtain ⟨-, h2, -⟩ := hE
    rcases hst with h' | h' <;> rw [← h2] at h' <;> simp at h'
  have hE' : exec { parser.init with ts := [] } .plain input = (p, st, none) := hE
  rw [parse, if_neg h0, parseSM_ok parser.init p st input hE']
  simp [parser.append, hb]

/-- Witness for C2 as amended, at the input `"a\x1b[3"` (a trailing
unterminated `CSIParams` sequence). -/
theorem trailing_escape_amended_witness :
    parse "a\x1b[3".toList =
      ([⟨['a'], "", "", false⟩, ⟨[], "", "", false⟩], none) :=
  trailing_escape_amended "a\x1b[3".toList
    ⟨[⟨['a'], "", "", false⟩], [], ['3'], "", "", false⟩ .csi (by decide) (Or.inr rfl)

/-- C3 counterexample: on `"a\x1bX"` the parse fails (escape introducer
not followed by `[`), yet the result paired with the error contains the
run `"a"` flushed before the failure, not an empty run sequence. -/
theorem parse_error_partial_runs_cex :
    parse "a\x1bX".toList = ([⟨['a'], "", "", false⟩], some .parseError) ∧
    ([⟨['a'], "", "", false⟩] : List Text) ≠ [] := by
  constructor
  · decide
  · decide

/-- Once the machine hits an error, any further input is never consumed:
the whole run returns that same error state. -/
lemma exec_append_err (cs : List Char) :
    ∀ (ds : List Char) (p : parser) (st : parseState) (p' : parser)
      (st' : parseState) (e : parseErr),
      exec p st cs = (p', st', some e) → exec p st (cs ++ ds) = (p', st', some e) := by
  induction cs with
  | nil =>
    intro ds p st p' st' e h
    simp [exec] at h
  | cons c cs ih =>
    intro ds p st p' st' e h
    rw [List.cons_append, exec_cons]
    rw [exec_cons] at h
    rcases hs : step p st c with ⟨p1, r⟩
    rw [hs] at h
    cases r with
    | ok st1 => exact ih ds _ _ _ _ _ h
    | error e1 => exact h

/-- C3 as amended: the parse aborts immediately at the first failing
code point — input past it has no effect — and the result paired with
the error is exactly the runs flushed before the failure, which may be
non-empty. -/
theorem parse_error_aborts_amended (input ds : List Char) (p : parser) (st : parseState)
    (e : parseErr) (hE : exec parser.init .plain input = (p, st, some e)) :
    parse (input ++ ds) = (p.ts, some e) := by
  have h0 : (input ++ ds).length ≠ 0 := by
    intro hlen
    have hnil : input ++ ds = [] := List.eq_nil_of_length_eq_zero hlen
    have hi : input = [] := (List.append_eq_nil.mp hnil).1
    subst hi
    simp [exec] at hE
  have hE2 : exec { parser.init with ts := [] } .plain (input ++ ds) = (p, st, some e) :=
    exec_append_err input ds parser.init .plain p st e hE
  rw [parse, if_neg h0, parseSM_err parser.init p st e (input ++ ds) hE2]

/-- Witness for C3 as amended: the error on `"a\x1bX"` is unaffected by
the trailing `"zz"`, and the flushed run `"a"` is returned with it. -/
theorem parse_error_aborts_amended_witness :
    parse ("a\x1bX".toList ++ "zz".toList) =
      ([⟨['a'], "", "", false⟩], some .parseError) :=
  parse_error_aborts_amended "a\x1bX".toList "zz".toList
    ⟨[⟨['a'], "", "", false⟩], [], [], "", "", false⟩ .esc .parseError (by decide)

/-- C4 counterexample: the empty input contains no escape introducer,
yet the parse returns zero runs, not one whole-input run with default
style. -/
theorem noesc_empty_input_cex :
    parse [] = ([], none) ∧ ([] : List Text) ≠ [⟨[], "", "", false⟩] := by
  constructor
  · rfl
  · decide

/-- Running the machine over escape-free input just accumulates the
pending text buffer in `Plain` mode. -/
lemma exec_no_esc (cs : List Char) :
    ∀ p : parser, '\x1b' ∉ cs →
      exec p .plain cs = ({ p with b := p.b ++ cs }, .plain, none) := by
  induction cs with
  | nil =>
    intro p h
    simp [exec]
  | cons c cs ih =>
    intro p h
    have hc : c ≠ '\x1b' := by
      intro hh
      exact h (by simp [hh])
    have hcs : '\x1b' ∉ cs := by
      intro hh
      exact h (by simp [hh])
    rw [exec_cons, step_plain_other p c hc]
    show exec { p with b := p.b ++ [c] } .plain cs = _
    rw [ih _ hcs]
    simp

lemma String.join_one (s : String) : String.join [s] = s := by
  cases s
  rfl

/-- C4 as amended: for every nonempty input containing no escape
introducer, the parse yields exactly one run carrying the whole input
with default style, and `parseHTML` is the HTML-escaped input with no
span wrapper. -/
theorem noesc_single_run (input : List Char) (h1 : input ≠ [])
    (h2 : '\x1b' ∉ input) :
    parse input = ([⟨input, "", "", false⟩], none) ∧
    parseHTML input = (escapeString input, none) := by
  have hE : exec { parser.init with ts := [] } .plain input =
      ({ parser.init with b := input }, .plain, none) := by
    have hh := exec_no_esc input { parser.init with ts := [] } h2
    simpa [parser.init] using hh
  have h0 : input.length ≠ 0 := fun hlen => h1 (List.eq_nil_of_length_eq_zero hlen)
  have hSM := parseSM_ok parser.init { parser.init with b := input } .plain input hE
  constructor
  · rw [parse, if_neg h0, hSM]
    simp [parser.append, parser.init]
  · rw [parseHTML, hSM]
    show (String.join [Text.toHTML ⟨input, "", "", false⟩], none) = (escapeString input, none)
    rw [String.join_one]
    rfl

/-- Witness for C4 as amended, at the nonempty escape-free input
`"a<b"`. -/
theorem noesc_single_run_witness :
    parse "a<b".toList = ([⟨"a<b".toList, "", "", false⟩], none) ∧
    parseHTML "a<b".toList = ("a&lt;b", none) := by
  have h := noesc_single_run "a<b".toList (by decide) (by decide)
  exact ⟨h.1, h.2.trans (by decide)⟩

/-- C5 counterexample: the input `"x"` also reaches end of input in
`Plain` mode, but its parse result is one run carrying `"x"`, not the
single empty-text run the claim ascribes to every such input. -/
theorem zero_length_contrast_cex :
    exec parser.init .plain ['x'] = (⟨[], ['x'], [], "", "", false⟩, .plain, none) ∧
    parse ['x'] = ([⟨['x'], "", "", false⟩], none) ∧
    ([⟨['x'], "", "", false⟩] : List Text) ≠ [⟨[], "", "", false⟩] := by
  refine ⟨by decide, by decide, by decide⟩

/-- C5 as amended: the zero-length input parses to zero runs with no
error, while every other input that reaches end of input in `Plain` mode
gets one final appended run carrying the pending buffer and current
style — the single empty-text run exactly when that buffer is empty. -/
theorem zero_length_special_case :
    parse [] = ([], none) ∧
    (∀ (input : List Char) (p : parser), input ≠ [] →
      exec parser.init .plain input = (p, .plain, none) →
      parse input = (p.ts ++ [⟨p.b, p.bg, p.fg, p.bold⟩], none)) := by
  constructor
  · rfl
  · intro input p h1 hE
    have h0 : input.length ≠ 0 := fun hlen => h1 (List.eq_nil_of_length_eq_zero hlen)
    have hE' : exec { parser.init with ts := [] } .plain input = (p, .plain, none) := hE
    rw [parse, if_neg h0, parseSM_ok parser.init p .plain input hE']
    simp [parser.append]

/-- Witness for C5 as amended: the zero-length case, and `"a\x1b[0m"`
which ends in `Plain` mode with an empty buffer and so gains the
trailing empty-text run. -/
theorem zero_length_special_case_witness :
    parse [] = ([], none) ∧
    parse "a\x1b[0m".toList =
      ([⟨['a'], "", "", false⟩, ⟨[], "", "", false⟩], none) := by
  refine ⟨zero_length_special_case.1, ?_⟩
  exact zero_length_special_case.2 "a\x1b[0m".toList
    ⟨[⟨['a'], "", "", false⟩], [], [], "", "", false⟩ (by decide) (by decide)
example : parseHTML "a<b".toList = ("a&lt;b", none) := by decide
example : Text.toHTML ⟨['x'], "#000080", "#008080", true⟩ =
    "<span style=\"background-color: #000080; color: #008080; font-weight: bold\">x</span>" := by decide

/-- C6: the 256-color resolver is piecewise consistent with the tables
and the cube formula — low table for 0-7, high table for 8-15, the cube
formula for 16-231, the grayscale ramp for 232-255, and the empty string
for every other integer; assigning that empty result through an
extended-color command clears the affected channel regardless of the
prior color. -/
theorem color8bit_piecewise (n : Int) :
    (0 ≤ n ∧ n ≤ 7 → color8bit n = LowColors.getD n.toNat "") ∧
    (8 ≤ n ∧ n ≤ 15 → color8bit n = HighColors.getD (n - 8).toNat "") ∧
    (16 ≤ n ∧ n ≤ 231 →
      color8bit n = "#" ++ CubeColors.getD ((n - 16).toNat / 36) "" ++
        CubeColors.getD (((n - 16).toNat - 36 * ((n - 16).toNat / 36)) / 6) "" ++
        CubeColors.getD ((n - 16).toNat - 36 * ((n - 16).toNat / 36) -
          6 * (((n - 16).toNat - 36 * ((n - 16).toNat / 36)) / 6)) "") ∧
    (232 ≤ n ∧ n ≤ 255 → color8bit n = GrayscaleColors.getD (n - 232).toNat "") ∧
    ((n < 0 ∨ 255 < n) → color8bit n = "") ∧
    (∀ p : parser, (n < 0 ∨ 255 < n) →
      applySGR p [38, 5, n] = ({ p with fg := "" }, none) ∧
      applySGR p [48, 5, n] = ({ p with bg := "" }, none)) := by
  refine ⟨?_, ?_, ?_, ?_, ?_, ?_⟩
  · intro h
    rw [color8bit, if_pos h]
  · intro h
    rw [color8bit, if_neg (by omega), if_pos h]
  · intro h
    rw [color8bit, if_neg (by omega), if_neg (by omega), if_pos h]
  · intro h
    rw [color8bit]
    repeat rw [if_neg (by omega)]
    rw [if_pos h]
  · intro h
    rw [color8bit]
    repeat rw [if_neg (by omega)]
  · intro p h
    have hc : color8bit n = "" := by
      rw [color8bit]
      repeat rw [if_neg (by omega)]
    constructor
    · rw [applySGR_38_5, hc, applySGR_nil]
    · rw [applySGR_48_5, hc, applySGR_nil]

/-- Witness for C6: one instantiation in each range, and the clearing of
a previously red foreground by an out-of-range index. -/
theorem color8bit_piecewise_witness :
    color8bit 3 = "#808000" ∧ color8bit 12 = "#0000ff" ∧ color8bit 42 = "#00d787" ∧
    color8bit 243 = "#767676" ∧ color8bit 300 = "" ∧
    applySGR ⟨[], [], [], "", "#ff0000", false⟩ [38, 5, 300] =
      (⟨[], [], [], "", "", false⟩, none) := by
  refine ⟨((color8bit_piecewise 3).1 (by decide)).trans (by decide),
    ((color8bit_piecewise 12).2.1 (by decide)).trans (by decide),
    ((color8bit_piecewise 42).2.2.1 (by decide)).trans (by decide),
    ((color8bit_piecewise 243).2.2.2.1 (by decide)).trans (by decide),
    (color8bit_piecewise 300).2.2.2.2.1 (by decide),
    (((color8bit_piecewise 300).2.2.2.2.2 ⟨[], [], [], "", "#ff0000", false⟩
      (by decide)).1).trans (by decide)⟩

/-- C7: an SGR 38 (resp. 48) with fewer than two entries after it makes
the parse fail — the code's shared `parseError` value, the
`InvalidParameter` of the specification — while `38;5;N` (resp.
`48;5;N`) sets the foreground (resp. background) to the resolved palette
color and consumes both following entries as part of the one command,
so they are not interpreted as further commands. -/
theorem extended_color_arity (p : parser) (rest : List Int) :
    (rest.length < 2 →
      applySGR p (38 :: rest) = (p, some .parseError) ∧
      applySGR p (48 :: rest) = (p, some .parseError)) ∧
    (∀ (n : Int) (rest2 : List Int),
      applySGR p (38 :: 5 :: n :: rest2) = applySGR { p with fg := color8bit n } rest2 ∧
      applySGR p (48 :: 5 :: n :: rest2) = applySGR { p with bg := color8bit n } rest2) := by
  constructor
  · intro hlen
    rcases rest with - | ⟨e1, - | ⟨e2, rest2⟩⟩
    · exact ⟨applySGR_38_nil p, applySGR_48_nil p⟩
    · exact ⟨applySGR_38_one p e1, applySGR_48_one p e1⟩
    · exfalso
      rw [List.length_cons, List.length_cons] at hlen
      omega
  · intro n rest2
    exact ⟨applySGR_38_5 p n rest2, applySGR_48_5 p n rest2⟩

/-- Witness for C7: too few entries after 38 fails; `38;5;196` resolves
to "#ff0000"; at the parse level `"\x1b[38;5m"` fails with the shared
error and no runs. -/
theorem extended_color_arity_witness :
    applySGR parser.init [38, 5] = (parser.init, some .parseError) ∧
    applySGR parser.init [38, 5, 196] = (⟨[], [], [], "", "#ff0000", false⟩, none) ∧
    parse "\x1b[38;5m".toList = ([], some .parseError) := by
  refine ⟨((extended_color_arity parser.init [5]).1 (by decide)).1, ?_, by decide⟩
  exact (((extended_color_arity parser.init []).2 196 []).1).trans (by decide)

lemma str_len_empty : ("" : String).length = 0 := rfl

lemma str_len_pos (s : String) : 0 < s.length ↔ s ≠ "" := by
  cases s with
  | mk data => cases data <;> simp [String.length, String.ext_iff]

/-- C8: the HTML renderer escapes the five reserved characters of the
run text and leaves every other character unchanged; a run with any
non-default attribute is wrapped in a span whose inline style lists only
the set attributes in the fixed order background-color, color,
font-weight joined by "; "; an all-default run is emitted unwrapped; and
`parseHTML` is the concatenation of the per-run outputs in run order
with no enclosing container element. -/
theorem html_renderer_spec :
    (escapeChar '&' = "&amp;" ∧ escapeChar '<' = "&lt;" ∧ escapeChar '>' = "&gt;" ∧
      escapeChar '"' = "&#34;" ∧ escapeChar '\x27' = "&#39;") ∧
    (∀ c : Char, c ∉ ['&', '<', '>', '"', '\x27'] → escapeChar c = String.singleton c) ∧
    (∀ s : List Char, escapeString s = String.join (s.map escapeChar)) ∧
    (∀ t : Text, (t.bg ≠ "" ∨ t.fg ≠ "" ∨ t.bold = true) →
      t.toHTML = "<span style=\"" ++
        String.intercalate "; "
          ((if t.bg ≠ "" then ["background-color: " ++ t.bg] else []) ++
           (if t.fg ≠ "" then ["color: " ++ t.fg] else []) ++
           (if t.bold then ["font-weight: bold"] else [])) ++
        "\">" ++ escapeString t.text ++ "</span>") ∧
    (∀ t : Text, t.bg = "" → t.fg = "" → t.bold = false → t.toHTML = escapeString t.text) ∧
    (∀ (input : List Char) (p : parser), parser.parseSM parser.init input = (p, none) →
      parseHTML input = (String.join (p.ts.map Text.toHTML), none)) := by
  refine ⟨⟨rfl, rfl, rfl, rfl, rfl⟩, ?_, ?_, ?_, ?_, ?_⟩
  · intro c hc
    simp only [List.mem_cons, List.not_mem_nil, or_false, not_or] at hc
    obtain ⟨h1, h2, h3, h4, h5⟩ := hc
    rw [escapeChar, if_neg h1, if_neg h5, if_neg h2, if_neg h3, if_neg h4]
  · intro s
    rfl
  · intro t h
    by_cases hbg : t.bg = "" <;> by_cases hfg : t.fg = "" <;>
        by_cases hbold : t.bold = true <;>
      simp_all [Text.toHTML, str_len_empty, gt_iff_lt, str_len_pos]
  · intro t h1 h2 h3
    simp [Text.toHTML, h1, h2, h3, str_len_empty]
  · intro input p h
    rw [parseHTML, h]

/-- Witness for C8: the reserved ampersand, an unreserved character, a
fully styled run, an all-default run over text containing `<`, and a
whole-input render. -/
theorem html_renderer_spec_witness :
    escapeChar '&' = "&amp;" ∧ escapeChar 'a' = "a" ∧
    Text.toHTML ⟨['x'], "#000080", "#008080", true⟩ =
      "<span style=\"background-color: #000080; color: #008080; font-weight: bold\">x</span>" ∧
    Text.toHTML ⟨"a<b".toList, "", "", false⟩ = "a&lt;b" ∧
    parseHTML "hi".toList = ("hi", none) := by
  refine ⟨html_renderer_spec.1.1, ?_, ?_, ?_, ?_⟩
  · exact (html_renderer_spec.2.1 'a' (by decide)).trans (by decide)
  · exact (html_renderer_spec.2.2.2.1 ⟨['x'], "#000080", "#008080", true⟩
      (Or.inl (by decide))).trans (by decide)
  · exact (html_renderer_spec.2.2.2.2.1 ⟨"a<b".toList, "", "", false⟩
      rfl rfl rfl).trans (by decide)
  · exact (html_renderer_spec.2.2.2.2.2 "hi".toList
      ⟨[⟨['h', 'i'], "", "", false⟩], [], [], "", "", false⟩ (by decide)).trans (by decide)

/-- C9 (code bug): palette indices 246 and 247 resolve to the same
color, "#9e9e9e" — the table entry that the standard xterm ramp has as
"#949494" is written "#9e9e9e" — so the grayscale ramp is not strictly
darkest-to-lightest; its neighbors on both sides do differ. -/
theorem grayscale_flat_pair :
    color8bit 246 = "#9e9e9e" ∧ color8bit 247 = "#9e9e9e" ∧
    GrayscaleColors.getD 14 "" = GrayscaleColors.getD 15 "" ∧
    color8bit 245 ≠ color8bit 246 ∧ color8bit 247 ≠ color8bit 248 := by
  refine ⟨by decide, by decide, by decide, by decide, by decide⟩

/-- C10: an SGR 38 (resp. 48) followed by at least two entries whose
first is not 5 reports no error, leaves the foreground (resp.
background) unchanged, and consumes exactly one following entry, so the
entry after it is interpreted as an independent command. -/
theorem extended_color_non5 (p : parser) (e1 e2 : Int) (rest : List Int) (h : e1 ≠ 5) :
    applySGR p (38 :: e1 :: e2 :: rest) = applySGR p (e2 :: rest) ∧
    applySGR p (48 :: e1 :: e2 :: rest) = applySGR p (e2 :: rest) :=
  ⟨applySGR_38_not5 p e1 e2 rest h, applySGR_48_not5 p e1 e2 rest h⟩

/-- Witness for C10: `38;2;31` skips the `2` and then applies `31` as an
independent foreground command. -/
theorem extended_color_non5_witness :
    applySGR parser.init [38, 2, 31] = applySGR parser.init [31] ∧
    applySGR parser.init [31] = (⟨[], [], [], "", "#800000", false⟩, none) := by
  refine ⟨(extended_color_non5 parser.init 2 31 [] (by decide)).1, by decide⟩
